import Mathlib

/-!
Verification of the realtime chat backend (`backend/sockets/chat.js`,
`backend/utils/redisClient.js`) against its natural-language specification.

The JavaScript source is shallowly embedded: each in-memory registry becomes
explicit functional state, each handler becomes a pure Lean function on that
state, and asynchronous callback protocols (the AI generator, the duplicate
login timer) become explicit outcome data passed to the embedded handler.
-/

namespace ChatServer

/-! ## Bounded LRU registry — `class LimitedMap extends Map` (chat.js 14-45)

A JS `Map` is a list of key/value pairs in insertion order; `Map.set` on an
existing key updates the value in place, otherwise appends; `Map.delete`
removes the unique matching entry. -/

structure LimitedMap (K V : Type) where
  entries : List (K × V)
  maxSize : Nat
  hitCount : Nat
  missCount : Nat

/-- A fresh `new LimitedMap(maxSize)`. -/
def LimitedMap.empty (K V : Type) (maxSize : Nat) : LimitedMap K V :=
  ⟨[], maxSize, 0, 0⟩

/-- JS `Map.prototype.set`: update in place when the key is present, else append. -/
def jsMapSet {K V : Type} [DecidableEq K] (l : List (K × V)) (k : K) (v : V) :
    List (K × V) :=
  if l.any (fun p => decide (p.1 = k)) then
    l.map (fun p => if p.1 = k then (k, v) else p)
  else
    l ++ [(k, v)]

/-- JS `Map.prototype.delete`: remove the first (unique) entry with the key. -/
def jsMapDelete {K V : Type} [DecidableEq K] (l : List (K × V)) (k : K) :
    List (K × V) :=
  l.eraseP (fun p => decide (p.1 = k))

/-- `LimitedMap.set` (chat.js 22-29): when `size >= maxSize`, delete the
oldest-inserted key (`this.keys().next().value`) before inserting. -/
def LimitedMap.set {K V : Type} [DecidableEq K] (m : LimitedMap K V) (k : K) (v : V) :
    LimitedMap K V :=
  let l :=
    if m.maxSize ≤ m.entries.length then
      match m.entries.head? with
      | some p => jsMapDelete m.entries p.1
      | none => m.entries
    else m.entries
  { m with entries := jsMapSet l k v }

/-- Pure lookup on the underlying map (no counter side effect). -/
def LimitedMap.lookup {K V : Type} [DecidableEq K] (m : LimitedMap K V) (k : K) :
    Option V :=
  (m.entries.find? (fun p => decide (p.1 = k))).map Prod.snd

/-- `LimitedMap.get` (chat.js 31-36): lookup plus hit/miss counter updates. -/
def LimitedMap.get {K V : Type} [DecidableEq K] (m : LimitedMap K V) (k : K) :
    Option V × LimitedMap K V :=
  match m.lookup k with
  | some v => (some v, { m with hitCount := m.hitCount + 1 })
  | none => (none, { m with missCount := m.missCount + 1 })

/-- `Map.delete` lifted to the registry. -/
def LimitedMap.del {K V : Type} [DecidableEq K] (m : LimitedMap K V) (k : K) :
    LimitedMap K V :=
  { m with entries := jsMapDelete m.entries k }

def LimitedMap.size {K V : Type} (m : LimitedMap K V) : Nat :=
  m.entries.length

def LimitedMap.keysList {K V : Type} (m : LimitedMap K V) : List K :=
  m.entries.map Prod.fst

def LimitedMap.hasKey {K V : Type} [DecidableEq K] (m : LimitedMap K V) (k : K) : Bool :=
  m.entries.any (fun p => decide (p.1 = k))

/-- The least-recently-inserted key (`this.keys().next().value`). -/
def LimitedMap.oldestKey {K V : Type} (m : LimitedMap K V) : Option K :=
  m.entries.head?.map Prod.fst

/-- One client-visible registry operation. -/
inductive MapOp (K V : Type) where
  | setOp (k : K) (v : V)
  | getOp (k : K)
  | delOp (k : K)

def applyOp {K V : Type} [DecidableEq K] (m : LimitedMap K V) : MapOp K V → LimitedMap K V
  | .setOp k v => m.set k v
  | .getOp k => (m.get k).2
  | .delOp k => m.del k

def applyOps {K V : Type} [DecidableEq K] (m : LimitedMap K V) (ops : List (MapOp K V)) :
    LimitedMap K V :=
  ops.foldl applyOp m

/-! ## Message store and history loading — `loadMessages` (chat.js 177-299)

A stored message: identifiers and timestamps are numbers, `isDeleted` is the
soft-delete flag. -/

structure Msg where
  id : Nat
  room : Nat
  timestamp : Nat
  isDeleted : Bool
deriving DecidableEq

/-- `{ room: roomId, isDeleted: { $ne: true }, timestamp: { $lt: before } }`
(chat.js 216-222). -/
def matchesQuery (roomId : Nat) (before : Option Nat) (m : Msg) : Bool :=
  m.room == roomId && !m.isDeleted &&
    (match before with
     | none => true
     | some b => m.timestamp < b)

/-- Descending timestamp order (`.sort(\x7b timestamp: -1 \x7d)`). -/
def tsDesc (a b : Msg) : Prop := b.timestamp ≤ a.timestamp

/-- Ascending timestamp order (the in-memory re-sort at chat.js 251-253). -/
def tsAsc (a b : Msg) : Prop := a.timestamp ≤ b.timestamp

instance : DecidableRel tsDesc := fun a b => Nat.decLe b.timestamp a.timestamp

instance : DecidableRel tsAsc := fun a b => Nat.decLe a.timestamp b.timestamp

instance : IsTotal Msg tsDesc := ⟨fun a b => Nat.le_total b.timestamp a.timestamp⟩

instance : IsTrans Msg tsDesc := ⟨fun _ _ _ h h2 => Nat.le_trans h2 h⟩

instance : IsTotal Msg tsAsc := ⟨fun a b => Nat.le_total a.timestamp b.timestamp⟩

instance : IsTrans Msg tsAsc := ⟨fun _ _ _ h h2 => Nat.le_trans h h2⟩

def BATCH_SIZE : Nat := 25

/-- The database read `Message.find(query).sort(desc).limit(limit + 1)`
(chat.js 225-244): the matching messages, newest first, at most `limit + 1`. -/
def dbFind (db : List Msg) (roomId : Nat) (before : Option Nat) (limit : Nat) :
    List Msg :=
  ((db.filter (matchesQuery roomId before)).insertionSort tsDesc).take (limit + 1)

structure LoadResult where
  messages : List Msg
  hasMore : Bool
  oldestTimestamp : Option Nat
deriving DecidableEq

/-- `loadMessages` (chat.js 177-299), cache-miss path: query `limit + 1`
newest-first, set `hasMore` when the extra row came back, drop the extra,
re-sort ascending, report the first returned timestamp (or null). -/
def loadMessages (db : List Msg) (roomId : Nat) (before : Option Nat)
    (limit : Nat) : LoadResult :=
  let messages := dbFind db roomId before limit
  let hasMore := decide (limit < messages.length)
  let resultMessages := messages.take limit
  let sortedMessages := resultMessages.insertionSort tsAsc
  { messages := sortedMessages
    hasMore := hasMore
    oldestTimestamp := sortedMessages.head?.map Msg.timestamp }

/-! ## Rate limiting — `checkRateLimit` (chat.js 339-379)

State: the in-process `rateLimitCache` entry count per `(userId, minute)` key,
and the Redis counter per key.  The stored `timestamp` field only feeds the
janitor, which is outside the per-window property, so the cache value is the
count. -/

def RATE_LIMIT_WINDOW : Nat := 60000

def RATE_LIMIT_MAX : Nat := 40

structure RLState where
  mem : Nat × Nat → Option Nat
  redis : Nat × Nat → Nat

def RLState.initial : RLState :=
  ⟨fun _ => none, fun _ => 0⟩

/-- `checkRateLimit(userId)` at wall-clock `now` (chat.js 339-379): consult the
memory cache first (reject at `count >= 40`, else increment in place); on a
miss, `INCR` the Redis counter, reject when it exceeds 40, else seed the
memory cache with it.  Returns whether the send is allowed, with the new
state. -/
def checkRateLimit (st : RLState) (userId now : Nat) : Bool × RLState :=
  let minute := now / RATE_LIMIT_WINDOW
  let key := (userId, minute)
  match st.mem key with
  | some c =>
      if RATE_LIMIT_MAX ≤ c then
        (false, st)
      else
        (true, { st with mem := fun x => if x = key then some (c + 1) else st.mem x })
  | none =>
      let r := st.redis key + 1
      let st1 : RLState := { st with redis := fun x => if x = key then r else st.redis x }
      if RATE_LIMIT_MAX < r then
        (false, st1)
      else
        (true, { st1 with mem := fun x => if x = key then some r else st.mem x })

/-- Run a sequence of `(userId, now)` send attempts, pairing each with its
admission result. -/
def runSends (st : RLState) : List (Nat × Nat) → List ((Nat × Nat) × Bool) × RLState
  | [] => ([], st)
  | c :: cs =>
      ((c, (checkRateLimit st c.1 c.2).1) ::
          (runSends (checkRateLimit st c.1 c.2).2 cs).1,
       (runSends (checkRateLimit st c.1 c.2).2 cs).2)

/-- Number of admitted sends by `userId` whose wall-clock time fell in
window `w`. -/
def succInWindow (userId w : Nat) (tr : List ((Nat × Nat) × Bool)) : Nat :=
  tr.countP (fun x => decide (x.1.1 = userId ∧ x.1.2 / RATE_LIMIT_WINDOW = w ∧ x.2 = true))

/-- Invariant tying the admitted-send count `s` of user `u` in window `w` to
the rate-limiter state: before any attempt the memory cache is empty and the
Redis counter zero; afterwards the memory cache holds exactly the admitted
count, which never exceeds the maximum. -/
def RLInv (u w : Nat) (st : RLState) (s : Nat) : Prop :=
  match st.mem (u, w) with
  | none => s = 0 ∧ st.redis (u, w) = 0
  | some c => s = c ∧ 1 ≤ c ∧ c ≤ RATE_LIMIT_MAX

/-- The error object thrown by `checkRateLimit` (chat.js 348, 364): a plain
`Error` carrying a message but no `code` property. -/
structure ErrObj where
  code : Option String
  message : String
deriving DecidableEq

def rateLimitError : ErrObj :=
  ⟨none, "메시지 전송 한도를 초과했습니다. (40개/분)"⟩

/-- The `chatMessage` catch branch (chat.js 794-797):
`socket.emit('error', \x7b code: error.code || 'MESSAGE_ERROR', ... \x7d)`. -/
def chatMessageEmittedCode (e : ErrObj) : String :=
  e.code.getD "MESSAGE_ERROR"

/-! ## Single-active-session pre-emption — `handleDuplicateLogin`
(chat.js 382-416) and the connection registration (chat.js 529-542) -/

/-- Events a socket can receive from the session-lifecycle handlers. -/
inductive SockEvent where
  | duplicateLogin
  | sessionEnded (reason : String)
  | errorEvent (message : String)
deriving DecidableEq

/-- How the pre-emption window closes: the 8-second timer fires, or the
incumbent socket disconnects first (chat.js 392-410). -/
inductive DupEnd where
  | timerExpired
  | incumbentDisconnected
deriving DecidableEq

/-- `handleDuplicateLogin(existingSocket, newSocket)`: emit `duplicate_login`
immediately; when the 8-s timer expires, emit
`session_ended\x7breason: duplicate_login\x7d` and `disconnect(true)` the
incumbent; when the incumbent disconnects first, `clearTimeout` and resolve.
Returns the events delivered to the incumbent and whether it was
force-closed. -/
def handleDuplicateLogin (ending : DupEnd) : List SockEvent × Bool :=
  ([SockEvent.duplicateLogin] ++
    (match ending with
     | .timerExpired => [SockEvent.sessionEnded "duplicate_login"]
     | .incumbentDisconnected => []),
   match ending with
   | .timerExpired => true
   | .incumbentDisconnected => false)

/-- Connection registration (chat.js 541): `connectedUsers.set(userId, socket.id)`
after the middleware (and any pre-emption handshake) has finished. -/
def registerConnection (connectedUsers : LimitedMap Nat Nat) (userId socketId : Nat) :
    LimitedMap Nat Nat :=
  connectedUsers.set userId socketId

/-! ## Disconnect cleanup — `socket.on('disconnect')` (chat.js 975-1038)

The registry part of the handler, as functional maps: `connectedUsers` is
removed only when it still points at this socket, `userRooms` is deleted
unconditionally, and the leave-message branch runs when the user had a room
and `reason` is neither `'client namespace disconnect'` nor
`'duplicate_login'`. -/

structure ConnState where
  connectedUsers : Nat → Option Nat
  userRooms : Nat → Option Nat

/-- Socket.IO delivers this `reason` to the server-side `disconnect` listener
when the server itself calls `socket.disconnect(true)` — the force-close in
`handleDuplicateLogin` (chat.js 398). -/
def serverNamespaceDisconnect : String := "server namespace disconnect"

/-- Socket.IO `reason` for a graceful client-initiated disconnect. -/
def clientNamespaceDisconnect : String := "client namespace disconnect"

/-- The disconnect handler's registry cleanup and leave-message decision
(chat.js 983-990, 1014): returns the new registries and whether the
`"<name>님이 연결이 끊어졌습니다."` system message is persisted, the user
pulled from the room participants and the update broadcast. -/
def disconnectCleanup (st : ConnState) (userId socketId : Nat) (reason : String) :
    ConnState × Bool :=
  let cu :=
    if st.connectedUsers userId = some socketId then
      fun u => if u = userId then none else st.connectedUsers u
    else st.connectedUsers
  let roomId := st.userRooms userId
  let ur :=
    match roomId with
    | some _ => fun u => if u = userId then none else st.userRooms u
    | none => st.userRooms
  let emitsLeave :=
    roomId.isSome && !(reason == clientNamespaceDisconnect) && !(reason == "duplicate_login")
  (⟨cu, ur⟩, emitsLeave)

/-! ## Cache boundary — `RedisClient.get` / `setEx` (redisClient.js 201-240,
242-270) and the cached-result handling in `loadMessages` (chat.js 190-213)

A cached runtime value is either a string or an already-decoded object;
decoded objects are represented by a numeric payload and `JSON.parse` by an
explicit partial decoder argument. -/

inductive JsVal where
  | vstr (s : String)
  | vobj (o : Nat)
deriving DecidableEq

/-- `RedisClient.get(key)` on the live-Redis path (redisClient.js 211-229):
null stays a miss; an object value is returned as-is; a string value is
JSON-parsed, and on parse failure the **raw string** is returned.  The store
is returned unchanged — no path deletes the entry. -/
def redisClientGet (dec : String → Option Nat) (store : String → Option JsVal)
    (key : String) : Option JsVal × (String → Option JsVal) :=
  match store key with
  | none => (none, store)
  | some (JsVal.vobj o) => (some (JsVal.vobj o), store)
  | some (JsVal.vstr s) =>
      match dec s with
      | some o => (some (JsVal.vobj o), store)
      | none => (some (JsVal.vstr s), store)

/-- `RedisClient.setEx` (redisClient.js 252-259): objects are stringified with
`JSON.stringify`, everything else with `String(...)` — the stored payload is
always textual. -/
def redisClientSetEx (enc : Nat → String) (store : String → Option JsVal)
    (key : String) (v : JsVal) : String → Option JsVal :=
  let stringValue :=
    match v with
    | JsVal.vobj o => enc o
    | JsVal.vstr s => s
  fun x => if x = key then some (JsVal.vstr stringValue) else store x

/-- The cached-result handling inside `loadMessages` (chat.js 198-209): an
object is used as-is; a string is parsed, and on parse failure the cache is
ignored (fall through to the database) — the entry is not deleted. -/
def loadMessagesCacheStep (dec : String → Option Nat) (cached : Option JsVal) :
    Option Nat :=
  match cached with
  | none => none
  | some (JsVal.vobj o) => some o
  | some (JsVal.vstr s) =>
      match dec s with
      | some o => some o
      | none => none

/-! ## Room join — `socket.on('joinRoom')` (chat.js 621-724) -/

structure RoomState where
  userRooms : Nat → Option Nat
  rooms : Nat → Option (List Nat)
  sysMessages : List (Nat × String)

/-- Mongo `$addToSet` on the participants array. -/
def addToSet (l : List Nat) (u : Nat) : List Nat :=
  if u ∈ l then l else l ++ [u]

/-- The `joinRoomSuccess` payload.  The already-in-room branch (chat.js
627-636) emits only `\x7b roomId \x7d`; the full join (chat.js 699-706) also
carries participants, messages, `hasMore` and `oldestTimestamp`. -/
structure JoinPayload where
  roomId : Nat
  participants : Option (List Nat)
  messages : Option (List Msg)
  hasMore : Option Bool
  oldestTimestamp : Option (Option Nat)
deriving DecidableEq

inductive JoinOutcome where
  | success (payload : JoinPayload)
  | joinError (message : String)
deriving DecidableEq

/-- `socket.on('joinRoom')` (chat.js 621-724): if the user's current room is
already `roomId`, emit `joinRoomSuccess \x7b roomId \x7d` and stop; otherwise
leave any current room, `$addToSet` the user into the room (error when the
room does not exist), record the current room, persist the
`"<name>님이 입장하였습니다."` system message, load the initial history and
return the full payload. -/
def joinRoom (st : RoomState) (db : List Msg) (userId : Nat) (userName : String)
    (roomId : Nat) : RoomState × JoinOutcome :=
  let currentRoom := st.userRooms userId
  if currentRoom = some roomId then
    (st, JoinOutcome.success ⟨roomId, none, none, none, none⟩)
  else
    let st1 :=
      match currentRoom with
      | some _ => { st with userRooms := fun u => if u = userId then none else st.userRooms u }
      | none => st
    match st1.rooms roomId with
    | none => (st1, JoinOutcome.joinError "채팅방을 찾을 수 없습니다.")
    | some ps =>
        let participants := addToSet ps userId
        let st2 : RoomState :=
          { userRooms := fun u => if u = userId then some roomId else st1.userRooms u
            rooms := fun r => if r = roomId then some participants else st1.rooms r
            sysMessages := st1.sysMessages ++ [(roomId, userName ++ "님이 입장하였습니다.")] }
        let load := loadMessages db roomId none BATCH_SIZE
        (st2, JoinOutcome.success
          ⟨roomId, some participants, some load.messages, some load.hasMore,
            some load.oldestTimestamp⟩)

/-! ## AI streaming — `handleAIResponse` (chat.js 1067-1156)

Modelled from the spec: `aiService.generateResponse` is repository code not
present under `src/`; per the spec, `AIGenerator.Stream(query, model)` is "a
producer of a lazy chunk sequence terminated by either a completion value or
an error", driving the `onChunk` / `onComplete` / `onError` callbacks in that
order.  The `onComplete` persistence step may itself fail (chat.js 1136-1139),
in which case no client event is emitted. -/

inductive AIEvent where
  | start (sid : String)
  | chunk (sid : String) (c : String)
  | complete (sid : String)
  | errorEv (sid : String)
deriving DecidableEq

/-- How the generator run terminates. -/
inductive GenEnd where
  | completeOk
  | completeSaveFail
  | genError
deriving DecidableEq

/-- Modelled from the spec: one `AIGenerator.Stream` run — the chunk sequence
handed to `onChunk` and the terminating callback. -/
structure GenBehavior where
  chunks : List String
  ending : GenEnd

/-- The room-broadcast trace of one `handleAIResponse(io, roomId, aiType,
query)` run for streaming session `sid`: `aiMessageStart` first; each chunk is
relayed only if the session entry is still present (`alive` records that guard
at each `onChunk`, chat.js 1095-1105); then `aiMessageComplete` on successful
save, nothing on save failure, or `aiMessageError` on generator error. -/
def handleAIResponse (sid : String) (g : GenBehavior) (alive : List Bool) :
    List AIEvent :=
  [AIEvent.start sid] ++
    ((g.chunks.zip alive).filterMap
      (fun p => if p.2 then some (AIEvent.chunk sid p.1) else none)) ++
    (match g.ending with
     | .completeOk => [AIEvent.complete sid]
     | .completeSaveFail => []
     | .genError => [AIEvent.errorEv sid])

/-! ## Force logout — `socket.on('force_login')` (chat.js 889-919) -/

/-- A bearer token as seen through `jwt.verify`: it either verifies and
decodes to a user id, or throws. -/
inductive JwtToken where
  | valid (userId : Nat)
  | invalid
deriving DecidableEq

def jwtVerify : JwtToken → Option Nat
  | .valid userId => some userId
  | .invalid => none

/-- `socket.on('force_login')` (chat.js 889-919): silent no-op without an
authenticated user; with one, verify the supplied token and require the same
user id, else throw into the catch branch which emits a plain `error` event;
on success emit `session_ended\x7breason: force_logout\x7d` and
`disconnect(true)`.  Returns the events emitted to the socket and whether it
was disconnected. -/
def forceLogin (sockUser : Option Nat) (token : JwtToken) :
    List SockEvent × Bool :=
  match sockUser with
  | none => ([], false)
  | some u =>
      match jwtVerify token with
      | some uid =>
          if uid = u then
            ([SockEvent.sessionEnded "force_logout"], true)
          else
            ([SockEvent.errorEvent "세션 종료 중 오류가 발생했습니다."], false)
      | none => ([SockEvent.errorEvent "세션 종료 중 오류가 발생했습니다."], false)

/-! ## Theorems -/

/-- After `Map.set`, looking up the written key finds the written value. -/
theorem find?_jsMapSet {K V : Type} [DecidableEq K] (l : List (K × V)) (k : K) (v : V) :
    (jsMapSet l k v).find? (fun p => decide (p.1 = k)) = some (k, v) := by
  unfold jsMapSet
  by_cases h : l.any (fun p => decide (p.1 = k)) = true
  · rw [if_pos h]
    induction l with
    | nil => simp at h
    | cons p t ih =>
        by_cases hp : p.1 = k
        · simp [List.find?, hp]
        · simp only [List.any_cons, Bool.or_eq_true, decide_eq_true_eq] at h
          rcases h with h | h
          · exact absurd h hp
          · simp only [List.map_cons, if_neg hp]
            rw [List.find?_cons_of_neg _ (by simpa using hp)]
            exact ih h
  · rw [if_neg h]
    rw [List.find?_append]
    have hnone : l.find? (fun p => decide (p.1 = k)) = none := by
      rw [List.find?_eq_none]
      intro x hx
      simp only [decide_eq_true_eq]
      intro hxk
      exact h (List.any_eq_true.2 ⟨x, hx, by simpa using hxk⟩)
    simp [hnone, List.find?]

theorem LimitedMap.lookup_set {K V : Type} [DecidableEq K]
    (m : LimitedMap K V) (k : K) (v : V) : (m.set k v).lookup k = some v := by
  unfold LimitedMap.set LimitedMap.lookup
  simp only [find?_jsMapSet, Option.map_some']

/-- C1 (amended): after `Register(u, c₁)` then `Register(u, c₂)`, the registry
maps `u` to `c₂`; the incumbent `c₁` receives `duplicate_login` and then, on
expiry of the 8-second timer, `session_ended\x7breason: duplicate_login\x7d`
followed by a force-close; if `c₁` gracefully disconnects before expiry the
timer is cancelled and no `session_ended` is emitted and no force-close
performed. -/
theorem duplicate_login_preemption :
    (∀ (m : LimitedMap Nat Nat) (u c₂ : Nat),
      (registerConnection m u c₂).lookup u = some c₂)
    ∧ handleDuplicateLogin DupEnd.timerExpired =
        ([SockEvent.duplicateLogin, SockEvent.sessionEnded "duplicate_login"], true)
    ∧ handleDuplicateLogin DupEnd.incumbentDisconnected =
        ([SockEvent.duplicateLogin], false) := by
  refine ⟨fun m u c₂ => ?_, rfl, rfl⟩
  exact LimitedMap.lookup_set m u c₂

/-- C1 counterexample: an incumbent that gracefully disconnects during the
8-second warning window never receives `session_ended` (the code clears the
timer and resolves, chat.js 407-410), and is not force-closed — contradicting
the claim that `session_ended\x7breason: duplicate_login\x7d` is delivered
"immediately if c₁ gracefully disconnects first". -/
theorem duplicate_login_graceful_no_session_ended :
    SockEvent.sessionEnded "duplicate_login" ∉
      (handleDuplicateLogin DupEnd.incumbentDisconnected).1
    ∧ (handleDuplicateLogin DupEnd.incumbentDisconnected).2 = false := by
  constructor
  · intro h
    simp [handleDuplicateLogin] at h
  · rfl

/-- C10: `force_login` is same-user-only and atomic on failure — with no
authenticated user it is a silent no-op; with one, the session is terminated
(`session_ended\x7breason: force_logout\x7d` then disconnect) exactly when the
token verifies to the same user id, and otherwise only a plain `error` event
is emitted and nothing is disconnected (the handler mutates no registry on any
failure path). -/
theorem force_login_same_user_only (u : Nat) (token : JwtToken) :
    forceLogin none token = ([], false)
    ∧ ((forceLogin (some u) token).2 = true ↔ jwtVerify token = some u)
    ∧ (jwtVerify token = some u →
        forceLogin (some u) token = ([SockEvent.sessionEnded "force_logout"], true))
    ∧ (jwtVerify token ≠ some u →
        forceLogin (some u) token =
          ([SockEvent.errorEvent "세션 종료 중 오류가 발생했습니다."], false)) := by
  refine ⟨rfl, ?_, ?_, ?_⟩
  · cases token with
    | valid uid =>
        by_cases h : uid = u <;> simp [forceLogin, jwtVerify, h]
    | invalid => simp [forceLogin, jwtVerify]
  · intro h
    cases token with
    | valid uid =>
        simp only [jwtVerify, Option.some.injEq] at h
        simp [forceLogin, jwtVerify, h]
    | invalid => simp [jwtVerify] at h
  · intro h
    cases token with
    | valid uid =>
        simp only [jwtVerify, ne_eq, Option.some.injEq] at h
        simp [forceLogin, jwtVerify, h]
    | invalid => simp [forceLogin, jwtVerify]

/-- C10 witness: a valid same-user token terminates the session, while a
token for a different user only yields an error event. -/
theorem force_login_same_user_only_witness :
    forceLogin (some 7) (JwtToken.valid 7) =
      ([SockEvent.sessionEnded "force_logout"], true)
    ∧ forceLogin (some 7) (JwtToken.valid 8) =
      ([SockEvent.errorEvent "세션 종료 중 오류가 발생했습니다."], false) :=
  ⟨(force_login_same_user_only 7 (JwtToken.valid 7)).2.2.1 rfl,
   (force_login_same_user_only 7 (JwtToken.valid 8)).2.2.2 (by decide)⟩

/-- C9: on disconnect of a stale socket `c₁` for user `u`, the connection
registry entry survives when it already points at the newer socket `c₂ ≠ c₁`
(guarded delete, chat.js 983-985), but the user's current-room mapping is
deleted unconditionally (chat.js 987-990) — erasing the new session's room
state. -/
theorem stale_disconnect_erases_user_room (st : ConnState) (u c₁ c₂ r : Nat)
    (reason : String) (hcu : st.connectedUsers u = some c₂) (hne : c₁ ≠ c₂)
    (hr : st.userRooms u = some r) :
    (disconnectCleanup st u c₁ reason).1.connectedUsers u = some c₂
    ∧ (disconnectCleanup st u c₁ reason).1.userRooms u = none := by
  have hne2 : c₂ ≠ c₁ := Ne.symm hne
  constructor <;> simp [disconnectCleanup, hcu, hr, hne2]

/-- C9 witness: concrete stale disconnect — user 1's registry points at the
new socket 20 and room 5; the old socket 10 disconnects; the connection entry
survives but the room mapping is erased. -/
theorem stale_disconnect_erases_user_room_witness :
    (disconnectCleanup
        ⟨fun u => if u = 1 then some 20 else none,
         fun u => if u = 1 then some 5 else none⟩ 1 10 "transport close").1.connectedUsers 1
      = some 20
    ∧ (disconnectCleanup
        ⟨fun u => if u = 1 then some 20 else none,
         fun u => if u = 1 then some 5 else none⟩ 1 10 "transport close").1.userRooms 1
      = none :=
  stale_disconnect_erases_user_room
    ⟨fun u => if u = 1 then some 20 else none, fun u => if u = 1 then some 5 else none⟩
    1 10 20 5 "transport close" (by simp) (by decide) (by simp)

/-- C5 (code bug): a pre-empted socket is force-closed by
`handleDuplicateLogin`, so its `disconnect` event carries Socket.IO's
`"server namespace disconnect"` reason — never the string
`'duplicate_login'` the guard at chat.js 1014 tests for — and the
leave-message branch therefore runs: the `"<name>님이 연결이 끊어졌습니다."`
system message is persisted, the user is pulled from the participants and the
update broadcast, contrary to the code's own comment
(`중복 로그인이 아닌 경우만`) and the spec. -/
theorem preemption_disconnect_emits_leave :
    (handleDuplicateLogin DupEnd.timerExpired).2 = true
    ∧ serverNamespaceDisconnect ≠ "duplicate_login"
    ∧ (disconnectCleanup
        ⟨fun u => if u = 1 then some 20 else none,
         fun u => if u = 1 then some 5 else none⟩ 1 10 serverNamespaceDisconnect).2
      = true := by
  refine ⟨rfl, by decide, by decide⟩

/-- C6 counterexample: a cached payload that fails to decode (the cache holds
the non-JSON string `"hello"`) is returned raw by `RedisClient.get` — not a
miss — and the entry is left in the store rather than deleted. -/
theorem cache_parse_failure_counterexample :
    (redisClientGet (fun _ => none)
        (fun k => if k = "k" then some (JsVal.vstr "hello") else none) "k").1
      = some (JsVal.vstr "hello")
    ∧ (redisClientGet (fun _ => none)
        (fun k => if k = "k" then some (JsVal.vstr "hello") else none) "k").2 "k"
      = some (JsVal.vstr "hello") := by
  constructor <;> rfl

/-- C6 (amended): the cache read path branches on the runtime type of the
cached value — an object is returned as-is, a string is JSON-parsed; on parse
failure `RedisClient.get` returns the raw string and `loadMessages` ignores
the cache and falls through to the database, and in neither case is the entry
deleted; writes (`setEx`) always store a textual payload, stringifying
objects. -/
theorem cache_read_write_behavior (dec : String → Option Nat) (enc : Nat → String)
    (store : String → Option JsVal) (key s : String) (o : Nat) (v : JsVal) :
    (store key = some (JsVal.vstr s) → dec s = none →
      redisClientGet dec store key = (some (JsVal.vstr s), store))
    ∧ (store key = some (JsVal.vobj o) →
      redisClientGet dec store key = (some (JsVal.vobj o), store))
    ∧ (store key = none → redisClientGet dec store key = (none, store))
    ∧ (dec s = none → loadMessagesCacheStep dec (some (JsVal.vstr s)) = none)
    ∧ (∃ t : String, redisClientSetEx enc store key v key = some (JsVal.vstr t)) := by
  refine ⟨?_, ?_, ?_, ?_, ?_⟩
  · intro hst hdec
    simp [redisClientGet, hst, hdec]
  · intro hst
    simp [redisClientGet, hst]
  · intro hst
    simp [redisClientGet, hst]
  · intro hdec
    simp [loadMessagesCacheStep, hdec]
  · cases v with
    | vobj o2 => exact ⟨enc o2, by simp [redisClientSetEx]⟩
    | vstr s2 => exact ⟨s2, by simp [redisClientSetEx]⟩

/-- C6 witness: concrete cache reads with an undecodable string, a decoded
object, and a miss, exercising every branch of the amended statement. -/
theorem cache_read_write_behavior_witness :
    redisClientGet (fun _ => none)
        (fun k => if k = "a" then some (JsVal.vstr "hello") else none) "a"
      = (some (JsVal.vstr "hello"),
          fun k => if k = "a" then some (JsVal.vstr "hello") else none)
    ∧ loadMessagesCacheStep (fun _ => none) (some (JsVal.vstr "hello")) = none
    ∧ redisClientGet (fun _ => none)
        (fun k => if k = "b" then some (JsVal.vobj 3) else none) "b"
      = (some (JsVal.vobj 3), fun k => if k = "b" then some (JsVal.vobj 3) else none)
    ∧ redisClientGet (fun _ => none) (fun _ => none) "c"
      = (none, fun _ => (none : Option JsVal)) :=
  ⟨(cache_read_write_behavior (fun _ => none) (fun _ => "0")
      (fun k => if k = "a" then some (JsVal.vstr "hello") else none) "a" "hello" 0
      (JsVal.vstr "")).1 (by simp) rfl,
   (cache_read_write_behavior (fun _ => none) (fun _ => "0")
      (fun k => if k = "a" then some (JsVal.vstr "hello") else none) "a" "hello" 0
      (JsVal.vstr "")).2.2.2.1 rfl,
   (cache_read_write_behavior (fun _ => none) (fun _ => "0")
      (fun k => if k = "b" then some (JsVal.vobj 3) else none) "b" "hello" 3
      (JsVal.vstr "")).2.1 (by simp),
   (cache_read_write_behavior (fun _ => none) (fun _ => "0")
      (fun _ => none) "c" "hello" 0 (JsVal.vstr "")).2.2.1 rfl⟩

/-- C7 (amended): rejoining the current room is a no-op on all state — the
current-room mapping, the participants sets and the persisted messages are
untouched and no join system message is created — and the caller receives a
`joinRoomSuccess` carrying only the room id, without the participants,
messages, `hasMore` or `oldestTimestamp` of the first join. -/
theorem join_room_rejoin_noop (st : RoomState) (db : List Msg) (u : Nat)
    (uname : String) (r : Nat) (h : st.userRooms u = some r) :
    joinRoom st db u uname r = (st, JoinOutcome.success ⟨r, none, none, none, none⟩) := by
  simp [joinRoom, h]

/-- C7 witness: user 1 joins room 5 then rejoins; the rejoin leaves the state
unchanged and returns the bare payload. -/
theorem join_room_rejoin_noop_witness :
    joinRoom
        (joinRoom ⟨fun _ => none, fun r => if r = 5 then some [] else none, []⟩
          [] 1 "alice" 5).1 [] 1 "alice" 5
      = ((joinRoom ⟨fun _ => none, fun r => if r = 5 then some [] else none, []⟩
          [] 1 "alice" 5).1,
         JoinOutcome.success ⟨5, none, none, none, none⟩) :=
  join_room_rejoin_noop
    (joinRoom ⟨fun _ => none, fun r => if r = 5 then some [] else none, []⟩
      [] 1 "alice" 5).1 [] 1 "alice" 5 (by simp [joinRoom, addToSet, reduceIte])

/-- C7 counterexample: the second `Join(u, r)` does not return the same state
as the first successful join — the first join's `joinRoomSuccess` carries the
participants (here `[1]`), messages, `hasMore` and `oldestTimestamp`, while
the rejoin's payload carries none of them. -/
theorem join_room_rejoin_counterexample :
    (joinRoom
        (joinRoom ⟨fun _ => none, fun r => if r = 5 then some [] else none, []⟩
          [] 1 "alice" 5).1 [] 1 "alice" 5).2
      = JoinOutcome.success ⟨5, none, none, none, none⟩
    ∧ (joinRoom ⟨fun _ => none, fun r => if r = 5 then some [] else none, []⟩
          [] 1 "alice" 5).2
      = JoinOutcome.success
          ⟨5, some [1], some [], some false, some none⟩
    ∧ (joinRoom
        (joinRoom ⟨fun _ => none, fun r => if r = 5 then some [] else none, []⟩
          [] 1 "alice" 5).1 [] 1 "alice" 5).2
      ≠ (joinRoom ⟨fun _ => none, fun r => if r = 5 then some [] else none, []⟩
          [] 1 "alice" 5).2 := by
  refine ⟨?_, ?_, ?_⟩ <;> decide

/-- C8: in the broadcast trace of an AI streaming session, the very first
event is the unique `aiMessageStart` for the sid, every later event is a
chunk or the single terminal event, and an `aiMessageComplete` never coexists
with (in particular never follows) an `aiMessageError` for the same sid. -/
theorem ai_streaming_event_order (sid : String) (g : GenBehavior) (alive : List Bool) :
    (handleAIResponse sid g alive).head? = some (AIEvent.start sid)
    ∧ (handleAIResponse sid g alive).countP (fun e => decide (e = AIEvent.start sid)) = 1
    ∧ (AIEvent.complete sid ∈ handleAIResponse sid g alive →
        AIEvent.errorEv sid ∉ handleAIResponse sid g alive)
    ∧ (∀ e ∈ (handleAIResponse sid g alive).tail,
        (∃ c, e = AIEvent.chunk sid c) ∨ e = AIEvent.complete sid ∨ e = AIEvent.errorEv sid) := by
  have hchunk : ∀ e ∈ (g.chunks.zip alive).filterMap
      (fun p => if p.2 then some (AIEvent.chunk sid p.1) else none),
      ∃ c, e = AIEvent.chunk sid c := by
    intro e he
    rcases List.mem_filterMap.1 he with ⟨p, _, hpe⟩
    by_cases hp : p.2 = true
    · rw [if_pos hp] at hpe
      exact ⟨p.1, (Option.some.inj hpe).symm⟩
    · rw [if_neg hp] at hpe
      exact absurd hpe (by simp)
  refine ⟨rfl, ?_, ?_, ?_⟩
  · rw [handleAIResponse]
    rw [List.countP_append, List.countP_append]
    have h1 : List.countP (fun e => decide (e = AIEvent.start sid)) [AIEvent.start sid] = 1 := by
      simp
    have h2 : List.countP (fun e => decide (e = AIEvent.start sid))
        ((g.chunks.zip alive).filterMap
          (fun p => if p.2 then some (AIEvent.chunk sid p.1) else none)) = 0 := by
      rw [List.countP_eq_zero]
      intro e he
      rcases hchunk e he with ⟨c, rfl⟩
      simp
    have h3 : List.countP (fun e => decide (e = AIEvent.start sid))
        (match g.ending with
         | GenEnd.completeOk => [AIEvent.complete sid]
         | GenEnd.completeSaveFail => []
         | GenEnd.genError => [AIEvent.errorEv sid]) = 0 := by
      cases g.ending <;> simp
    omega
  · intro hc he
    rw [handleAIResponse] at hc he
    have hnotstart : AIEvent.errorEv sid ≠ AIEvent.start sid := by simp
    simp only [List.mem_append, List.mem_singleton] at hc he
    rcases he with (he | he) | he
    · exact hnotstart he
    · rcases hchunk _ he with ⟨c, hec⟩
      exact absurd hec (by simp)
    · rcases hc with (hc | hc) | hc
      · exact absurd hc (by simp)
      · rcases hchunk _ hc with ⟨c, hec⟩
        exact absurd hec (by simp)
      · cases hg : g.ending <;> rw [hg] at hc he <;> simp_all
  · intro e he
    have he2 : e ∈ ((g.chunks.zip alive).filterMap
        (fun p => if p.2 then some (AIEvent.chunk sid p.1) else none)) ++
        (match g.ending with
         | GenEnd.completeOk => [AIEvent.complete sid]
         | GenEnd.completeSaveFail => []
         | GenEnd.genError => [AIEvent.errorEv sid]) := by
      simpa [handleAIResponse] using he
    rcases List.mem_append.1 he2 with he3 | he3
    · exact Or.inl (hchunk e he3)
    · cases hg : g.ending <;> rw [hg] at he3 <;> simp_all

/-- C8 witness: a one-chunk successful stream — the completion event coexists
with no error event, and every post-start event is a chunk or the terminal
completion. -/
theorem ai_streaming_event_order_witness :
    AIEvent.errorEv "s" ∉ handleAIResponse "s" ⟨["a"], GenEnd.completeOk⟩ [true]
    ∧ ((∃ c, AIEvent.chunk "s" "a" = AIEvent.chunk "s" c)
        ∨ AIEvent.chunk "s" "a" = AIEvent.complete "s"
        ∨ AIEvent.chunk "s" "a" = AIEvent.errorEv "s") :=
  ⟨(ai_streaming_event_order "s" ⟨["a"], GenEnd.completeOk⟩ [true]).2.2.1 (by decide),
   (ai_streaming_event_order "s" ⟨["a"], GenEnd.completeOk⟩ [true]).2.2.2
     (AIEvent.chunk "s" "a") (by decide)⟩

/-- C2: a `Fetch` with `hasMore = false` returns exactly the non-deleted
messages of the room older than `before` (all of them when `before` is
absent); the result is always ascending by timestamp, holds at most `limit`
messages, reports `oldestTimestamp` as the first returned message's timestamp
(null when empty), and `hasMore` is true exactly when the `limit + 1`-row
query came back full. -/
theorem history_fetch_correct (db : List Msg) (roomId : Nat) (before : Option Nat)
    (limit : Nat) :
    ((loadMessages db roomId before limit).hasMore = false →
      (loadMessages db roomId before limit).messages.Perm
        (db.filter (matchesQuery roomId before)))
    ∧ (loadMessages db roomId before limit).messages.Sorted tsAsc
    ∧ (loadMessages db roomId before limit).messages.length ≤ limit
    ∧ (loadMessages db roomId before limit).oldestTimestamp
        = (loadMessages db roomId before limit).messages.head?.map Msg.timestamp
    ∧ ((loadMessages db roomId before limit).hasMore = true
        ↔ (dbFind db roomId before limit).length = limit + 1) := by
  have hmsgs_le : (dbFind db roomId before limit).length ≤ limit + 1 := by
    unfold dbFind
    rw [List.length_take]
    exact Nat.min_le_left _ _
  refine ⟨?_, ?_, ?_, rfl, ?_⟩
  · intro hf
    have hf2 : decide (limit < (dbFind db roomId before limit).length) = false := hf
    rw [decide_eq_false_iff_not, Nat.not_lt] at hf2
    have hfilterlen : (db.filter (matchesQuery roomId before)).length ≤ limit := by
      by_contra hgt
      rw [Nat.not_le] at hgt
      have hfull : (dbFind db roomId before limit).length = limit + 1 := by
        unfold dbFind
        rw [List.length_take, List.length_insertionSort]
        omega
      omega
    have htake1 : dbFind db roomId before limit
        = (db.filter (matchesQuery roomId before)).insertionSort tsDesc := by
      unfold dbFind
      apply List.take_of_length_le
      rw [List.length_insertionSort]
      omega
    have htake2 : (dbFind db roomId before limit).take limit
        = dbFind db roomId before limit :=
      List.take_of_length_le hf2
    show List.Perm (((dbFind db roomId before limit).take limit).insertionSort tsAsc) _
    have p1 : List.Perm (((dbFind db roomId before limit).take limit).insertionSort tsAsc)
        ((dbFind db roomId before limit).take limit) := List.perm_insertionSort _ _
    have p2 : (dbFind db roomId before limit).take limit
        = (db.filter (matchesQuery roomId before)).insertionSort tsDesc := by
      rw [htake2, htake1]
    have p3 : List.Perm ((db.filter (matchesQuery roomId before)).insertionSort tsDesc)
        (db.filter (matchesQuery roomId before)) := List.perm_insertionSort _ _
    exact (p1.trans (p2 ▸ List.Perm.refl _)).trans p3
  · show List.Sorted tsAsc
      (((dbFind db roomId before limit).take limit).insertionSort tsAsc)
    exact List.sorted_insertionSort tsAsc _
  · show (((dbFind db roomId before limit).take limit).insertionSort tsAsc).length ≤ limit
    rw [List.length_insertionSort, List.length_take]
    exact Nat.min_le_left _ _
  · show decide (limit < (dbFind db roomId before limit).length) = true ↔ _
    rw [decide_eq_true_eq]
    omega

/-- C2 witness: a four-message store (one deleted, one in another room) at
`limit = 2` — with `before` absent `hasMore` is false and the fetch returns
precisely the two live messages of room 1 ascending. -/
theorem history_fetch_correct_witness :
    (loadMessages
        [⟨1, 1, 10, false⟩, ⟨2, 1, 20, true⟩, ⟨3, 2, 30, false⟩, ⟨4, 1, 40, false⟩]
        1 none 2).messages.Perm
      (([⟨1, 1, 10, false⟩, ⟨2, 1, 20, true⟩, ⟨3, 2, 30, false⟩,
          ⟨4, 1, 40, false⟩] : List Msg).filter (matchesQuery 1 none)) :=
  (history_fetch_correct
      [⟨1, 1, 10, false⟩, ⟨2, 1, 20, true⟩, ⟨3, 2, 30, false⟩, ⟨4, 1, 40, false⟩]
      1 none 2).1 (by decide)

/-- A rate-limit check for one key leaves every other key's state alone. -/
theorem checkRateLimit_untouched (st : RLState) (uid now : Nat) (k : Nat × Nat)
    (hk : k ≠ (uid, now / RATE_LIMIT_WINDOW)) :
    (checkRateLimit st uid now).2.mem k = st.mem k
    ∧ (checkRateLimit st uid now).2.redis k = st.redis k := by
  simp only [checkRateLimit]
  cases hmem : st.mem (uid, now / RATE_LIMIT_WINDOW) with
  | none =>
      by_cases h1 : RATE_LIMIT_MAX < st.redis (uid, now / RATE_LIMIT_WINDOW) + 1 <;>
        simp [h1, hk]
  | some c =>
      by_cases h1 : RATE_LIMIT_MAX ≤ c <;> simp [h1, hk]

/-- One `checkRateLimit` call preserves the window invariant, counting the
attempt exactly when it is admitted for this user and window. -/
theorem rl_step (u w uid now : Nat) (st : RLState) (s : Nat) (h : RLInv u w st s) :
    RLInv u w (checkRateLimit st uid now).2
      (s + if uid = u ∧ now / RATE_LIMIT_WINDOW = w ∧ (checkRateLimit st uid now).1 = true
           then 1 else 0) := by
  by_cases hkey : (u, w) = (uid, now / RATE_LIMIT_WINDOW)
  · have hu : u = uid := (Prod.ext_iff.1 hkey).1
    have hw : w = now / RATE_LIMIT_WINDOW := (Prod.ext_iff.1 hkey).2
    subst hu
    subst hw
    cases hmem : st.mem (u, now / RATE_LIMIT_WINDOW) with
    | none =>
        simp only [RLInv, hmem] at h
        obtain ⟨hs, hr⟩ := h
        subst hs
        simp only [checkRateLimit, hmem, hr]
        norm_num [RLInv, RATE_LIMIT_MAX]
    | some c =>
        simp only [RLInv, hmem] at h
        obtain ⟨hs, hc1, hc2⟩ := h
        simp only [RATE_LIMIT_MAX] at hc2
        by_cases hge : RATE_LIMIT_MAX ≤ c
        · simp only [checkRateLimit, hmem, if_pos hge]
          simp only [RLInv, hmem]
          simp only [RATE_LIMIT_MAX]
          simp
          omega
        · simp only [checkRateLimit, hmem, if_neg hge]
          simp only [RLInv]
          simp only [RATE_LIMIT_MAX] at hge ⊢
          simp
          omega
  · have hpred : ¬(uid = u ∧ now / RATE_LIMIT_WINDOW = w
        ∧ (checkRateLimit st uid now).1 = true) := by
      rintro ⟨h1, h2, _⟩
      exact hkey (by rw [h1, h2])
    rw [if_neg hpred, Nat.add_zero]
    obtain ⟨hm, hr⟩ := checkRateLimit_untouched st uid now (u, w) hkey
    simp only [RLInv, hm, hr]
    exact h

/-- The window invariant is preserved along any run of send attempts. -/
theorem runSends_inv (u w : Nat) :
    ∀ (calls : List (Nat × Nat)) (st : RLState) (s : Nat), RLInv u w st s →
      RLInv u w (runSends st calls).2 (s + succInWindow u w (runSends st calls).1) := by
  intro calls
  induction calls with
  | nil =>
      intro st s h
      simpa [runSends, succInWindow] using h
  | cons c cs ih =>
      intro st s h
      have hstep := rl_step u w c.1 c.2 st s h
      have htail := ih (checkRateLimit st c.1 c.2).2
        (s + if c.1 = u ∧ c.2 / RATE_LIMIT_WINDOW = w ∧ (checkRateLimit st c.1 c.2).1 = true
             then 1 else 0) hstep
      simp only [runSends, succInWindow, List.countP_cons] at htail ⊢
      by_cases hp : c.1 = u ∧ c.2 / RATE_LIMIT_WINDOW = w ∧ (checkRateLimit st c.1 c.2).1 = true
      · rw [if_pos hp] at htail
        have hdec : decide (c.1 = u ∧ c.2 / RATE_LIMIT_WINDOW = w
            ∧ (checkRateLimit st c.1 c.2).1 = true) = true := decide_eq_true hp
        simp only [hdec]
        convert htail using 1
        simp
        try omega
      · rw [if_neg hp, Nat.add_zero] at htail
        have hdec : decide (c.1 = u ∧ c.2 / RATE_LIMIT_WINDOW = w
            ∧ (checkRateLimit st c.1 c.2).1 = true) = false := decide_eq_false hp
        simp only [hdec]
        convert htail using 1

/-- Keys never attempted keep their initial rate-limiter state. -/
theorem runSends_untouched (u w : Nat) :
    ∀ (calls : List (Nat × Nat)) (st : RLState),
      (∀ c ∈ calls, ¬(c.1 = u ∧ c.2 / RATE_LIMIT_WINDOW = w)) →
      (runSends st calls).2.mem (u, w) = st.mem (u, w)
      ∧ (runSends st calls).2.redis (u, w) = st.redis (u, w) := by
  intro calls
  induction calls with
  | nil => intro st _; exact ⟨rfl, rfl⟩
  | cons c cs ih =>
      intro st hall
      have hkey : (u, w) ≠ (c.1, c.2 / RATE_LIMIT_WINDOW) := by
        intro he
        exact hall c (List.mem_cons_self c cs)
          ⟨((Prod.ext_iff.1 he).1).symm, ((Prod.ext_iff.1 he).2).symm⟩
      obtain ⟨hm, hr⟩ := checkRateLimit_untouched st c.1 c.2 (u, w) hkey
      have htail := ih (checkRateLimit st c.1 c.2).2
        (fun x hx => hall x (List.mem_cons_of_mem c hx))
      simp only [runSends]
      exact ⟨htail.1.trans hm, htail.2.trans hr⟩

/-- C3 (amended): for every sequence of sends, at most 40 are admitted per
user per wall-clock minute window; once 40 are admitted in a window, any
further attempt in that window is rejected; a send in a window the user never
touched is admitted; and a rejected send surfaces to the client as
`error\x7bcode: "MESSAGE_ERROR"\x7d` — the rate-limit `Error` carries no
`code` property, so the generic fallback code is used. -/
theorem rate_limit_window_bound (calls : List (Nat × Nat)) (u w : Nat) :
    succInWindow u w (runSends RLState.initial calls).1 ≤ RATE_LIMIT_MAX
    ∧ (succInWindow u w (runSends RLState.initial calls).1 = RATE_LIMIT_MAX →
        ∀ now, now / RATE_LIMIT_WINDOW = w →
          (checkRateLimit (runSends RLState.initial calls).2 u now).1 = false)
    ∧ ((∀ c ∈ calls, ¬(c.1 = u ∧ c.2 / RATE_LIMIT_WINDOW = w)) →
        ∀ now, now / RATE_LIMIT_WINDOW = w →
          (checkRateLimit (runSends RLState.initial calls).2 u now).1 = true)
    ∧ chatMessageEmittedCode rateLimitError = "MESSAGE_ERROR" := by
  have h0 : RLInv u w RLState.initial 0 := by
    simp [RLInv, RLState.initial]
  have hfin := runSends_inv u w calls RLState.initial 0 h0
  rw [Nat.zero_add] at hfin
  refine ⟨?_, ?_, ?_, rfl⟩
  · cases hmem : (runSends RLState.initial calls).2.mem (u, w) with
    | none =>
        simp only [RLInv, hmem] at hfin
        omega
    | some c =>
        simp only [RLInv, hmem] at hfin
        omega
  · intro hfull now hnow
    cases hmem : (runSends RLState.initial calls).2.mem (u, w) with
    | none =>
        simp only [RLInv, hmem] at hfin
        rw [hfin.1] at hfull
        simp [RATE_LIMIT_MAX] at hfull
    | some c =>
        simp only [RLInv, hmem] at hfin
        have hc : c = RATE_LIMIT_MAX := by omega
        rw [← hnow] at hmem
        simp only [checkRateLimit, hmem]
        rw [if_pos (by omega)]
  · intro hall now hnow
    obtain ⟨hm, hr⟩ := runSends_untouched u w calls RLState.initial hall
    rw [← hnow] at hm hr
    have hm2 : (runSends RLState.initial calls).2.mem (u, now / RATE_LIMIT_WINDOW)
        = none := hm
    have hr2 : (runSends RLState.initial calls).2.redis (u, now / RATE_LIMIT_WINDOW)
        = 0 := hr
    simp only [checkRateLimit, hm2, hr2]
    rw [if_neg (by simp [RATE_LIMIT_MAX])]

/-- C3 witness: after 40 sends at time 0 by user 0 the 41st attempt in the
same window is rejected, while user 0's first send in an untouched window is
admitted. -/
theorem rate_limit_window_bound_witness :
    (checkRateLimit (runSends RLState.initial (List.replicate 40 (0, 0))).2 0 0).1 = false
    ∧ (checkRateLimit (runSends RLState.initial [(1, 0)]).2 0 0).1 = true :=
  ⟨(rate_limit_window_bound (List.replicate 40 (0, 0)) 0 0).2.1 (by decide) 0 rfl,
   (rate_limit_window_bound [(1, 0)] 0 0).2.2.1 (by decide) 0 rfl⟩

/-- C3 counterexample: running 41 sends by one user inside one window, the
first 40 are admitted and the 41st rejected, but the rejection's wire error
code is `"MESSAGE_ERROR"`, not the `"RATE_LIMITED"` the claim states. -/
theorem rate_limit_error_code_counterexample :
    ((runSends RLState.initial (List.replicate 41 (0, 0))).1.map (fun x => x.2))
      = List.replicate 40 true ++ [false]
    ∧ chatMessageEmittedCode rateLimitError = "MESSAGE_ERROR"
    ∧ "MESSAGE_ERROR" ≠ "RATE_LIMITED" := by
  refine ⟨by decide, rfl, by decide⟩

/-- `Map.set` grows the entry list by at most one. -/
theorem length_jsMapSet_le {K V : Type} [DecidableEq K] (l : List (K × V)) (k : K) (v : V) :
    (jsMapSet l k v).length ≤ l.length + 1 := by
  unfold jsMapSet
  split_ifs with h
  · rw [List.length_map]
    omega
  · rw [List.length_append, List.length_cons, List.length_nil]

/-- `Map.delete` never grows the entry list. -/
theorem length_jsMapDelete_le {K V : Type} [DecidableEq K] (l : List (K × V)) (k : K) :
    (jsMapDelete l k).length ≤ l.length :=
  (List.eraseP_sublist l).length_le

/-- Updating a key in place leaves the key list untouched. -/
theorem map_fst_update {K V : Type} [DecidableEq K] (l : List (K × V)) (k : K) (v : V) :
    (l.map (fun p => if p.1 = k then (k, v) else p)).map Prod.fst = l.map Prod.fst := by
  induction l with
  | nil => rfl
  | cons p t ih =>
      simp only [List.map_cons, List.cons.injEq]
      refine ⟨?_, ih⟩
      by_cases hp : p.1 = k
      · rw [if_pos hp]
        exact hp.symm
      · rw [if_neg hp]

/-- The key list after `Map.set`: unchanged when the key was present, extended
by the key otherwise. -/
theorem keys_jsMapSet {K V : Type} [DecidableEq K] (l : List (K × V)) (k : K) (v : V) :
    (jsMapSet l k v).map Prod.fst =
      if l.any (fun p => decide (p.1 = k)) then l.map Prod.fst
      else l.map Prod.fst ++ [k] := by
  unfold jsMapSet
  split_ifs with h
  · exact map_fst_update l k v
  · simp

/-- `Map.set` preserves distinctness of keys. -/
theorem nodup_keys_jsMapSet {K V : Type} [DecidableEq K] (l : List (K × V)) (k : K)
    (v : V) (h : (l.map Prod.fst).Nodup) : ((jsMapSet l k v).map Prod.fst).Nodup := by
  rw [keys_jsMapSet]
  split_ifs with hany
  · exact h
  · rw [List.nodup_append]
    refine ⟨h, List.nodup_singleton k, ?_⟩
    intro x hx hxk
    rw [List.mem_singleton] at hxk
    rcases List.mem_map.1 hx with ⟨p, hp, hpk⟩
    have hKey : l.any (fun q => decide (q.1 = k)) = true :=
      List.any_eq_true.2 ⟨p, hp, by rw [hpk, hxk]; simp⟩
    rw [hKey] at hany
    exact absurd rfl hany

/-- `Map.delete` preserves distinctness of keys. -/
theorem nodup_keys_jsMapDelete {K V : Type} [DecidableEq K] (l : List (K × V)) (k : K)
    (h : (l.map Prod.fst).Nodup) : ((jsMapDelete l k).map Prod.fst).Nodup :=
  ((List.eraseP_sublist l).map Prod.fst).nodup h

/-- `LimitedMap.get` only touches the counters. -/
theorem get_entries {K V : Type} [DecidableEq K] (m : LimitedMap K V) (k : K) :
    ((m.get k).2).entries = m.entries ∧ ((m.get k).2).maxSize = m.maxSize := by
  unfold LimitedMap.get
  cases m.lookup k <;> exact ⟨rfl, rfl⟩

/-- Every registry operation preserves the configured maximum. -/
theorem applyOp_maxSize {K V : Type} [DecidableEq K] (m : LimitedMap K V)
    (op : MapOp K V) : (applyOp m op).maxSize = m.maxSize := by
  cases op with
  | setOp k v => rfl
  | getOp k => exact (get_entries m k).2
  | delOp k => rfl

/-- The size bound and key distinctness survive one operation (for a positive
capacity). -/
theorem good_applyOp {K V : Type} [DecidableEq K] (m : LimitedMap K V)
    (op : MapOp K V) (hpos : 1 ≤ m.maxSize)
    (h : m.size ≤ m.maxSize ∧ m.keysList.Nodup) :
    (applyOp m op).size ≤ (applyOp m op).maxSize ∧ (applyOp m op).keysList.Nodup := by
  obtain ⟨hsz, hnd⟩ := h
  cases op with
  | getOp k =>
      obtain ⟨he, hm⟩ := get_entries m k
      unfold applyOp LimitedMap.size LimitedMap.keysList at *
      rw [he, hm]
      exact ⟨hsz, hnd⟩
  | delOp k =>
      unfold applyOp LimitedMap.del LimitedMap.size LimitedMap.keysList at *
      exact ⟨Nat.le_trans (length_jsMapDelete_le m.entries k) hsz,
        nodup_keys_jsMapDelete m.entries k hnd⟩
  | setOp k v =>
      unfold applyOp LimitedMap.set LimitedMap.size LimitedMap.keysList at *
      by_cases hcap : m.maxSize ≤ m.entries.length
      · have heq : m.entries.length = m.maxSize := Nat.le_antisymm hsz hcap
        cases hent : m.entries with
        | nil =>
            rw [hent] at heq
            simp only [List.length_nil] at heq
            omega
        | cons p t =>
            rw [hent] at hcap heq hnd
            simp only [if_pos hcap, List.head?_cons]
            have hdel : jsMapDelete (p :: t) p.1 = t := by
              unfold jsMapDelete
              exact List.eraseP_cons_of_pos (by simp)
            rw [hdel]
            have hlt : t.length + 1 = m.maxSize := by
              simpa using heq
            have hndt : (t.map Prod.fst).Nodup := by
              simp only [List.map_cons, List.nodup_cons] at hnd
              exact hnd.2
            exact ⟨by
              have := length_jsMapSet_le t k v
              omega, nodup_keys_jsMapSet t k v hndt⟩
      · simp only [if_neg hcap]
        rw [Nat.not_le] at hcap
        exact ⟨by
          have := length_jsMapSet_le m.entries k v
          omega, nodup_keys_jsMapSet m.entries k v hnd⟩

/-- Every state reachable from an empty positive-capacity registry is within
bounds, has distinct keys, and keeps its configured maximum. -/
theorem good_applyOps {K V : Type} [DecidableEq K] :
    ∀ (ops : List (MapOp K V)) (m : LimitedMap K V), 1 ≤ m.maxSize →
      m.size ≤ m.maxSize ∧ m.keysList.Nodup →
      ((applyOps m ops).size ≤ (applyOps m ops).maxSize
        ∧ (applyOps m ops).keysList.Nodup)
      ∧ (applyOps m ops).maxSize = m.maxSize := by
  intro ops
  induction ops with
  | nil => intro m _ h; exact ⟨h, rfl⟩
  | cons op rest ih =>
      intro m hpos h
      have hstep := good_applyOp m op hpos h
      have hmax := applyOp_maxSize m op
      have := ih (applyOp m op) (by omega) hstep
      unfold applyOps at this ⊢
      simp only [List.foldl_cons]
      exact ⟨this.1, this.2.trans hmax⟩

/-- Inserting a new key into a full registry with distinct keys evicts the
oldest-inserted key and admits the new one. -/
theorem set_evicts_oldest {K V : Type} [DecidableEq K] (m : LimitedMap K V)
    (hnd : m.keysList.Nodup) (hfull : m.size = m.maxSize) (hpos : 1 ≤ m.maxSize)
    (k : K) (v : V) (k0 : K) (hk : m.hasKey k = false) (h0 : m.oldestKey = some k0) :
    (m.set k v).hasKey k0 = false ∧ (m.set k v).hasKey k = true := by
  cases hent : m.entries with
  | nil =>
      unfold LimitedMap.size at hfull
      rw [hent] at hfull
      simp only [List.length_nil] at hfull
      omega
  | cons p t =>
      have hk0 : k0 = p.1 := by
        unfold LimitedMap.oldestKey at h0
        rw [hent] at h0
        simp only [List.head?_cons, Option.map_some'] at h0
        exact (Option.some.inj h0).symm
      have hcap2 : m.maxSize ≤ (p :: t).length := by
        unfold LimitedMap.size at hfull
        rw [hent] at hfull
        omega
      have hanyf : (p :: t).any (fun q => decide (q.1 = k)) = false := by
        unfold LimitedMap.hasKey at hk
        rw [hent] at hk
        exact hk
      have hanyt : t.any (fun q => decide (q.1 = k)) = false := by
        simp only [List.any_cons, Bool.or_eq_false_iff] at hanyf
        exact hanyf.2
      have hpk : ¬(p.1 = k) := by
        simp only [List.any_cons, Bool.or_eq_false_iff, decide_eq_false_iff_not] at hanyf
        exact hanyf.1
      have hset : (m.set k v).entries = t ++ [(k, v)] := by
        unfold LimitedMap.set
        rw [hent]
        simp only [if_pos hcap2, List.head?_cons]
        have hdel : jsMapDelete (p :: t) p.1 = t := by
          unfold jsMapDelete
          exact List.eraseP_cons_of_pos (by simp)
        rw [hdel]
        unfold jsMapSet
        rw [if_neg (by rw [hanyt]; exact Bool.false_ne_true)]
      have hp1t : ¬(p.1 ∈ t.map Prod.fst) := by
        unfold LimitedMap.keysList at hnd
        rw [hent] at hnd
        simp only [List.map_cons, List.nodup_cons] at hnd
        exact hnd.1
      constructor
      · unfold LimitedMap.hasKey
        rw [hset, hk0]
        rw [List.any_append]
        have h1 : t.any (fun q => decide (q.1 = p.1)) = false := by
          rw [List.any_eq_false]
          intro q hq
          simp only [decide_eq_true_eq]
          intro hqp
          exact hp1t (List.mem_map.2 ⟨q, hq, hqp⟩)
        have h2 : [(k, v)].any (fun q => decide (q.1 = p.1)) = false := by
          simp only [List.any_cons, List.any_nil, Bool.or_false,
            decide_eq_false_iff_not]
          intro hkp
          exact hpk hkp.symm
        rw [h1, h2]
        rfl
      · unfold LimitedMap.hasKey
        rw [hset]
        rw [List.any_append]
        simp

/-- C4: starting from any fresh `LimitedMap` with positive maximum `N`
(every registry in the code is built with `N ≥ 200`), no sequence of
set/get/delete operations ever pushes the size beyond `N`, and a set of a new
key at full capacity evicts the oldest-inserted key while admitting the new
one. -/
theorem limited_map_bounded (N : Nat) (hN : 1 ≤ N) :
    (∀ ops : List (MapOp Nat Nat),
      (applyOps (LimitedMap.empty Nat Nat N) ops).size ≤ N)
    ∧ (∀ (ops : List (MapOp Nat Nat)) (k v k0 : Nat),
        (applyOps (LimitedMap.empty Nat Nat N) ops).size = N →
        (applyOps (LimitedMap.empty Nat Nat N) ops).hasKey k = false →
        (applyOps (LimitedMap.empty Nat Nat N) ops).oldestKey = some k0 →
        ((applyOps (LimitedMap.empty Nat Nat N) ops).set k v).hasKey k0 = false
        ∧ ((applyOps (LimitedMap.empty Nat Nat N) ops).set k v).hasKey k = true) := by
  have hbase : (LimitedMap.empty Nat Nat N).size ≤ (LimitedMap.empty Nat Nat N).maxSize
      ∧ (LimitedMap.empty Nat Nat N).keysList.Nodup := by
    constructor
    · show 0 ≤ N
      omega
    · exact List.nodup_nil
  constructor
  · intro ops
    have h := good_applyOps ops (LimitedMap.empty Nat Nat N) hN hbase
    have h2 : (applyOps (LimitedMap.empty Nat Nat N) ops).maxSize = N := h.2
    have h1 := h.1.1
    omega
  · intro ops k v k0 hfull hk h0
    have h := good_applyOps ops (LimitedMap.empty Nat Nat N) hN hbase
    have hmax : (applyOps (LimitedMap.empty Nat Nat N) ops).maxSize = N := h.2
    exact set_evicts_oldest (applyOps (LimitedMap.empty Nat Nat N) ops) h.1.2
      (by omega) (by omega) k v k0 hk h0

/-- C4 witness: with capacity 1, after inserting key 0 the registry is full;
inserting the new key 1 evicts key 0, and the size bound holds along a
two-insert run. -/
theorem limited_map_bounded_witness :
    (applyOps (LimitedMap.empty Nat Nat 1) [MapOp.setOp 0 5, MapOp.setOp 1 6]).size ≤ 1
    ∧ ((applyOps (LimitedMap.empty Nat Nat 1) [MapOp.setOp 0 5]).set 1 6).hasKey 0 = false :=
  ⟨(limited_map_bounded 1 (by decide)).1 [MapOp.setOp 0 5, MapOp.setOp 1 6],
   ((limited_map_bounded 1 (by decide)).2 [MapOp.setOp 0 5] 1 6 0
      (by decide) (by decide) (by decide)).1⟩

end ChatServer
